import Mathlib

/-!
Verification of the Koopa IR core (`src/ir/entities.rs`, `src/ir/types.rs`,
`src/ir/core.rs`), the textual front-end AST (`src/front/ast.rs`) and the
interpreter's foreign-call collaborator
(`examples/interpreter/src/ext_funcs.rs`) against the repository's
natural-language specification.

The Rust data structures are shallowly embedded: handles (`Value`,
`BasicBlock`, type handles) become natural numbers, `HashMap`s become
association lists, `HashSet`s become `Finset`s, and panics become `Except`
errors that carry the state observable at the panic point.
-/

namespace Koopa

/-- Handle of a Koopa IR value (`Value` in `entities.rs`): an opaque id. -/
abbrev Value := Nat

/-- Handle of a Koopa IR basic block (`BasicBlock` in `entities.rs`). -/
abbrev BasicBlock := Nat

/-- Handle of a Koopa IR function (`Function` in `entities.rs`). -/
abbrev FunctionH := Nat

/-- Modelled from the spec: binary operator tag of `Binary(op, lhs, rhs)`
(`ir/values.rs` does not ship in `src/`); only its identity matters here. -/
inductive BinaryOp where
  | add | sub | mul | div | mod
  | eq | notEq | lt | gt | le | ge
  | and | or | xor | shl | shr | sar
deriving DecidableEq, Repr

/-- Modelled from the spec: unary operator tag used by the front-end AST
(`ir/instructions.rs` does not ship in `src/`); only its identity matters. -/
inductive UnaryOp where
  | neg | not
deriving DecidableEq, Repr

/-- Modelled from the spec: the type algebra of §3 of the spec
(`Unit`, `Int32`, `Array`, `Pointer`, `Function`, `BasicBlock`).  The type
module that `entities.rs` imports (`TypeKind`, `Type::get_basic_block`,
`is_unit`) does not ship in `src/`; since the spec makes handle equality
coincide with structural equality (hash-consing), type handles are modelled
as the structural trees themselves. -/
inductive TypeK where
  | unit
  | int32
  | array (base : TypeK) (len : Nat)
  | pointer (base : TypeK)
  | function (params : List TypeK) (ret : TypeK)
  | basicBlock (params : List TypeK)

/-- Kind of a Koopa IR value (`ValueKind` in `entities.rs`; operand shapes
follow the accessors used by the `ValueUses`/`BasicBlockUses` iterators and
§3 of the spec, `ir/values.rs` itself not shipping in `src/`). -/
inductive ValueKind where
  | integer (value : Int)
  | zeroInit
  | undef
  | aggregate (elems : List Value)
  | funcArgRef (index : Nat)
  | blockArgRef (bb : BasicBlock) (index : Nat)
  | alloc
  | globalAlloc (init : Value)
  | load (src : Value)
  | store (value : Value) (dest : Value)
  | getPtr (src : Value) (index : Value)
  | getElemPtr (src : Value) (index : Value)
  | binary (op : BinaryOp) (lhs : Value) (rhs : Value)
  | branch (cond : Value) (trueBB : BasicBlock) (trueArgs : List Value)
      (falseBB : BasicBlock) (falseArgs : List Value)
  | jump (target : BasicBlock) (args : List Value)
  | call (callee : FunctionH) (args : List Value)
  | ret (value : Option Value)
deriving DecidableEq, Repr

/-- One step of the `ValueUses` iterator (`impl Iterator for ValueUses`,
`entities.rs` lines 410-469): the value yielded when `self.index = cur`.
`vec_use!` arms are in-bounds vector indexing, embedded as `List.get?`;
`field_use!` arms compare `cur` against the listed field positions. -/
def valueUsesNext (kind : ValueKind) (cur : Nat) : Option Value :=
  match kind with
  | .aggregate elems => elems.get? cur
  | .globalAlloc init => if cur = 0 then some init else none
  | .load src => if cur = 0 then some src else none
  | .store value dest =>
      if cur = 0 then some value else if cur = 1 then some dest else none
  | .getPtr src index =>
      if cur = 0 then some src else if cur = 1 then some index else none
  | .getElemPtr src index =>
      if cur = 0 then some src else if cur = 1 then some index else none
  | .binary _ lhs rhs =>
      if cur = 0 then some lhs else if cur = 1 then some rhs else none
  | .branch cond _ trueArgs _ falseArgs =>
      if cur = 0 then some cond
      else if 1 ≤ cur ∧ cur ≤ trueArgs.length then trueArgs.get? (cur - 1)
      else if trueArgs.length < cur ∧ cur ≤ trueArgs.length + falseArgs.length
        then falseArgs.get? (cur - trueArgs.length - 1)
      else none
  | .jump _ args => args.get? cur
  | .call _ args => args.get? cur
  | .ret value => if cur = 0 then value else none
  | _ => none

/-- The full operand sequence produced by driving the `ValueUses` iterator
to exhaustion (the semantics of `for v in data.kind().value_uses()`). -/
def valueUses (kind : ValueKind) : List Value :=
  match kind with
  | .aggregate elems => elems
  | .globalAlloc init => [init]
  | .load src => [src]
  | .store value dest => [value, dest]
  | .getPtr src index => [src, index]
  | .getElemPtr src index => [src, index]
  | .binary _ lhs rhs => [lhs, rhs]
  | .branch cond _ trueArgs _ falseArgs => cond :: (trueArgs ++ falseArgs)
  | .jump _ args => args
  | .call _ args => args
  | .ret value => value.toList
  | _ => []

/-- One step of the `BasicBlockUses` iterator (`entities.rs` 477-496). -/
def bbUsesNext (kind : ValueKind) (cur : Nat) : Option BasicBlock :=
  match kind with
  | .branch _ trueBB _ falseBB _ =>
      if cur = 0 then some trueBB else if cur = 1 then some falseBB else none
  | .jump target _ => if cur = 0 then some target else none
  | _ => none

/-- Data of a Koopa IR value (`ValueData` in `entities.rs`). -/
structure ValueData where
  ty : TypeK
  name : Option String
  kind : ValueKind
  used_by : Finset Value

/-- `ValueData::new` (`entities.rs` 330-337): fresh data has no name and an
empty `used_by` set. -/
def ValueData.new (ty : TypeK) (kind : ValueKind) : ValueData :=
  { ty := ty, name := none, kind := kind, used_by := ∅ }

/-- `ValueData::set_name` (`entities.rs` 350-352): stores the given name
with no validation. -/
def ValueData.setName (d : ValueData) (name : Option String) : ValueData :=
  { d with name := name }

/-- The global value map of a `Program` (`HashMap<Value, ValueData>` in
`entities.rs`), embedded as an association list; `lookupV` returns the
first binding, `insert` conses in front, `eraseV` drops every binding of
the key, so the three agree with `HashMap` semantics. -/
abbrev VMap := List (Value × ValueData)

/-- `HashMap::get`: the first binding of `v`, if any. -/
def lookupV : VMap → Value → Option ValueData
  | [], _ => none
  | p :: rest, v => if p.1 = v then some p.2 else lookupV rest v

/-- `HashMap::get_mut` followed by an in-place update of the entry at `v`. -/
def updV (m : VMap) (v : Value) (f : ValueData → ValueData) : VMap :=
  m.map fun p => if p.1 = v then (p.1, f p.2) else p

/-- `HashMap::remove`: drop the binding of `v`. -/
def eraseV (m : VMap) (v : Value) : VMap :=
  m.filter fun p => p.1 ≠ v

/-- The `for v in data.kind().value_uses() { data_mut!(self, v).used_by... }`
loops of `Program::new_value` and `Program::remove_value` (`entities.rs`
45-47 and 66-68): apply `f` to the data of each listed operand in turn;
`data_mut!`'s `expect("value does not exist")` on a missing operand is the
`.error` case, carrying the map as it stands at the panic. -/
def applyUses (f : ValueData → ValueData) (m : VMap) :
    List Value → Except (String × VMap) VMap
  | [] => .ok m
  | u :: rest =>
      match lookupV m u with
      | none => .error ("value does not exist", m)
      | some _ => applyUses f (updV m u f) rest

/-- Insertion of a user into a `used_by` set (`used_by.insert(value)`). -/
def addUser (v : Value) (d : ValueData) : ValueData :=
  { d with used_by := insert v d.used_by }

/-- Removal of a user from a `used_by` set (`used_by.remove(&value)`). -/
def delUser (v : Value) (d : ValueData) : ValueData :=
  { d with used_by := d.used_by.erase v }

/-- `Program::new_value` (`entities.rs` 43-50): allocate the fresh handle
`v` (`next_value_id`), enrol it in the `used_by` set of every operand
yielded by `value_uses`, then insert the data under `v`. -/
def newValue (m : VMap) (v : Value) (data : ValueData) :
    Except (String × VMap) VMap :=
  match applyUses (addUser v) m (valueUses data.kind) with
  | .error e => .error e
  | .ok m1 => .ok ((v, data) :: m1)

/-- `Program::remove_value` (`entities.rs` 59-70): take the data out of the
map (panicking if absent), assert `used_by` is empty, then strip `v` from
every operand's `used_by`.  Each `.error` carries the map observable at
that panic point: in particular the used-by assertion fires only after the
entry has already been removed. -/
def removeValue (m : VMap) (v : Value) :
    Except (String × VMap) (ValueData × VMap) :=
  match lookupV m v with
  | none => .error ("`value` does not exist", m)
  | some data =>
      if data.used_by = ∅ then
        match applyUses (delUser v) (eraseV m v) (valueUses data.kind) with
        | .error e => .error e
        | .ok m1 => .ok (data, m1)
      else .error ("`value` is used by other values", eraseV m v)

/-- The use-symmetry invariant (spec §8, property 1) over a global value
map: every operand of an entry exists and records the entry as a user, and
every recorded user exists and names the entry in an operand slot. -/
def UseSym (m : VMap) : Prop :=
  (∀ p ∈ m, ∀ u ∈ valueUses (p : Value × ValueData).2.kind,
    ∃ du, lookupV m u = some du ∧ p.1 ∈ du.used_by) ∧
  (∀ p ∈ m, ∀ w ∈ (p : Value × ValueData).2.used_by,
    ∃ dw, lookupV m w = some dw ∧ p.1 ∈ valueUses dw.kind)

/-- The name check shared by the constructors and setters (Rust
`n.len() > 1 && (n.starts_with('%') || n.starts_with('@'))`; for strings
admitted by the prefix test, byte length and character length agree on
whether they exceed 1). -/
def validName (n : String) : Bool :=
  n.data.length > 1 && (n.data.head? = some '%' || n.data.head? = some '@')

/-- The `name.as_ref().map_or(true, ...)` pattern: an absent name is
always accepted. -/
def validNameOpt (name : Option String) : Bool :=
  match name with
  | none => true
  | some n => validName n

/-- Data of a Koopa IR basic block (`BasicBlockData` in `entities.rs`). -/
structure BasicBlockData where
  ty : TypeK
  name : Option String
  params : List Value
  used_by : Finset Value

/-- The `matches!(ty.kind(), TypeKind::BasicBlock(p) if p.len() == params.len())`
guard of `BasicBlockData::with_params`. -/
def isValidBBType (ty : TypeK) (n : Nat) : Bool :=
  match ty with
  | .basicBlock p => p.length == n
  | _ => false

/-- `BasicBlockData::with_params` (`entities.rs` 263-274): asserts only
that `ty` is a basic-block type with as many parameter types as there are
parameter values; the `.error` case is the assertion panic. -/
def BasicBlockData.withParams (name : Option String) (params : List Value)
    (ty : TypeK) : Except String BasicBlockData :=
  if isValidBBType ty params.length then
    .ok { ty := ty, name := name, params := params, used_by := ∅ }
  else .error "`ty` is not a valid basic block type"

/-- `BasicBlockData::new` (`entities.rs` 244-256): validates the optional
name and builds a parameterless block of type `BasicBlock([])`. -/
def BasicBlockData.new (name : Option String) : Except String BasicBlockData :=
  if validNameOpt name then
    .ok { ty := .basicBlock [], name := name, params := [], used_by := ∅ }
  else .error "invalid basic block name"

/-! ### The older-generation value core (`src/ir/core.rs`) -/

/-- The mutable inner of a `core.rs` `Value` (`ValueInner`): its optional
name, its intrusive list of uses (use ids, front to back) and its parent
block. -/
structure ValueInner where
  name : Option String
  uses : List Nat
  bb : Option Nat

/-- `ValueInner::set_name` (`core.rs` 127-134): asserts the name is absent
or of length > 1 starting with `'%'` or `'@'`; the `.error` case is the
assertion panic, raised before the field is assigned. -/
def ValueInner.setName (inner : ValueInner) (name : Option String) :
    Except String ValueInner :=
  if validNameOpt name then .ok { inner with name := name }
  else .error "invalid value name"

/-- The state touched by `ValueInner::replace_all_uses_with`: every
value's use list (`core.rs` values are identified by the address of their
inner, here a `Nat`) and every use's current value (`Use::value`). -/
structure CoreState where
  useList : Nat → List Nat
  useValue : Nat → Option Nat

/-- `ValueInner::replace_all_uses_with` (`core.rs` 159-172) called on the
inner of `self` with replacement `value`.  The `assert!` comparing
`&v.inner().uses` with `&self.uses` by address (and, before it, the
`RefCell` re-borrow of the same inner) rejects `value = some self` with no
state change; otherwise each use is popped off `self`'s list front to
back, retargeted at `value`, and pushed onto the back of `value`'s list
(or dropped from every list when `value` is `none`). -/
def replaceAllUsesWith (self : Nat) (value : Option Nat) (st : CoreState) :
    Except (String × CoreState) CoreState :=
  if value = some self then
    .error ("`value` can not be the same as `self`!", st)
  else
    let moved := st.useList self
    .ok
      { useList := fun w =>
          if w = self then []
          else if value = some w then st.useList w ++ moved
          else st.useList w,
        useValue := fun u => if u ∈ moved then value else st.useValue u }

/-! ### The hash-consing type factory (`src/ir/types.rs`) -/

/-- `TypeData` of `types.rs`: its `Type` children are `Rc` handles, and the
derived `PartialEq` compares them by `Rc` pointer identity, so children are
embedded as allocation addresses (`Nat`). -/
inductive TypeData where
  | int32
  | array (base : Nat) (len : Nat)
  | pointer (base : Nat)
  | function (ret : Option Nat) (params : List Nat)
deriving DecidableEq, Repr

/-- `TypeFactory` (`types.rs` 65-74): the interning map together with the
address that `Rc::new` would hand to the next fresh allocation. -/
structure TypeFactory where
  types : List (TypeData × Nat)
  next : Nat

/-- `HashMap::get` on the factory's map. -/
def lookupT : List (TypeData × Nat) → TypeData → Option Nat
  | [], _ => none
  | p :: rest, d => if p.1 = d then some p.2 else lookupT rest d

/-- `TypeFactory::get_type` (`types.rs` 77-83): return the interned handle
when the data is already present, otherwise allocate a fresh handle,
record it and return it. -/
def getType (f : TypeFactory) (d : TypeData) : Nat × TypeFactory :=
  match lookupT f.types d with
  | some t => (t, f)
  | none => (f.next, ⟨(d, f.next) :: f.types, f.next + 1⟩)

/-- Well-formedness of a factory, as maintained by `get_type` from the
empty factory: recorded handles are older than the next allocation, and
the interning map is a bijection between its data and its handles. -/
def TypeFactory.WF (f : TypeFactory) : Prop :=
  (∀ p ∈ f.types, (p : TypeData × Nat).2 < f.next) ∧
  (∀ p ∈ f.types, ∀ q ∈ f.types,
    (p : TypeData × Nat).1 = (q : TypeData × Nat).1 → p.2 = q.2) ∧
  (∀ p ∈ f.types, ∀ q ∈ f.types,
    (p : TypeData × Nat).2 = (q : TypeData × Nat).2 → p.1 = q.1)

/-- `TypeData` with the `Rc` indirection inlined: the shape of the tree of
allocations that `fmt::Display` (`types.rs` 18-40) walks while printing.
`Rc` trees are acyclic, so the walk is structural recursion. -/
inductive TypeTree where
  | int32
  | array (base : TypeTree) (len : Nat)
  | pointer (base : TypeTree)
  | function (ret : Option TypeTree) (params : List TypeTree)

mutual

/-- `impl fmt::Display for TypeData` (`types.rs` 18-40): `i32` for
`Int32`, `T[N]` for arrays, `T*` for pointers, and the optional return
type followed by the parenthesised argument list for functions. -/
def printType : TypeTree → String
  | .int32 => "i32"
  | .array t len => printType t ++ "[" ++ toString len ++ "]"
  | .pointer t => printType t ++ "*"
  | .function ret args => printRet ret ++ "(" ++ printArgs args true ++ ")"

/-- The `if let Some(ret) = ret { write!(f, "{}", ret); }` prefix. -/
def printRet : Option TypeTree → String
  | some r => printType r
  | none => ""

/-- The `args.iter().fold(true, ...)` comma-separating fold: `first` is
the fold's accumulator deciding whether `", "` precedes the element. -/
def printArgs : List TypeTree → Bool → String
  | [], _ => ""
  | t :: rest, first =>
      (if first then "" else ", ") ++ printType t ++ printArgs rest false

end

/-! ### The interpreter's foreign-call collaborator
(`examples/interpreter/src/ext_funcs.rs`) -/

/-- The interpreter's runtime value (`Val`, whose defining module does not
ship in `src/`; the variants and payloads are the ones `ext_funcs.rs`
matches on, with machine addresses embedded as `Nat`).  `rawPtr` models
the Rust variant `Val::UnsafePointer(Option<NonNull<()>>)`. -/
inductive Val where
  | undef
  | int (i : Int)
  | array (addr : Nat)
  | pointer (ptr : Option Nat)
  | rawPtr (ptr : Option Nat)
deriving DecidableEq, Repr

/-- `ExternFuncs::val_to_usize` (`ext_funcs.rs` 106-116): marshal a value
to a machine word; `*i as usize` sign-extends the 32-bit integer into the
64-bit word, pointers contribute their address and null or undefined
values contribute zero. -/
def valToUsize : Val → Nat
  | .undef => 0
  | .int i => (i % (2 : Int) ^ 64).toNat
  | .array a => a
  | .pointer (some p) => p
  | .pointer none => 0
  | .rawPtr (some p) => p
  | .rawPtr none => 0

/-- `u as i32`: the low 32 bits of the word read as two's complement. -/
def usizeToI32 (u : Nat) : Int :=
  let r : Nat := u % 2 ^ 32
  if r < 2 ^ 31 then (r : Int) else (r : Int) - 2 ^ 32

/-- `NonNull::new(u as *mut ())`: `none` exactly on the null address. -/
def nonNullNew (u : Nat) : Option Nat :=
  if u = 0 then none else some u

/-- `ExternFuncs::usize_to_val` (`ext_funcs.rs` 118-125): materialise the
returned machine word according to the declared return type; `none` is the
`panic!("unsupported value type")` arm. -/
def usizeToVal (u : Nat) (ty : TypeK) : Option Val :=
  match ty with
  | .int32 => some (.int (usizeToI32 u))
  | .unit => some .undef
  | .array _ _ => some (.rawPtr (nonNullNew u))
  | .pointer _ => some (.rawPtr (nonNullNew u))
  | _ => none

/-- `ExternFuncs::call_ext_func` (`ext_funcs.rs` 41-104): for at most 28
arguments, marshal each argument in order, invoke the resolved symbol
(the oracle `g`, standing for the foreign function) and materialise its
word result by return type; for more than 28 arguments, report the
"argument number exceeded" error without calling.  `.ok none` is the
materialisation panic on unsupported return types. -/
def callExtFunc (g : List Nat → Nat) (args : List Val) (retTy : TypeK) :
    Except String (Option Val) :=
  if args.length ≤ 28 then
    .ok (usizeToVal (g (args.map valToUsize)) retTy)
  else .error "argument number exceeded in external function call"

/-! ### The textual front-end AST (`src/front/ast.rs`) -/

/-- Modelled from the spec: the source span carried by diagnostics
(`front/span.rs` does not ship in `src/`); only its presence matters for
the AST equality claim. -/
structure Span where
  startPos : Nat
  endPos : Nat
deriving DecidableEq, Repr

mutual

/-- An AST node (`Ast` in `ast.rs`): a span and a kind. -/
inductive Ast where
  | mk (span : Span) (kind : AstKind)

/-- `AstKind` of `ast.rs`, with each variant's payload struct flattened
into the constructor's fields (in the struct's field order);
`Box`/`Vec`/`Option` wrappers become direct children, lists and optionals. -/
inductive AstKind where
  | intType
  | arrayType (base : Ast) (len : Nat)
  | pointerType (base : Ast)
  | funType (params : List Ast) (ret : Option Ast)
  | symbolRef (symbol : String)
  | intVal (value : Int)
  | undefVal
  | aggregate (elems : List Ast)
  | zeroInit
  | symbolDef (name : String) (value : Ast)
  | globalDef (name : String) (value : Ast)
  | memDecl (ty : Ast)
  | globalDecl (ty : Ast) (init : Ast)
  | load (symbol : String)
  | store (value : Ast) (symbol : String)
  | getPointer (symbol : String) (value : Ast)
  | getElementPointer (symbol : String) (value : Ast)
  | binaryExpr (op : BinaryOp) (lhs : Ast) (rhs : Ast)
  | unaryExpr (op : UnaryOp) (opr : Ast)
  | branch (cond : Ast) (tbb : String) (fbb : String)
  | jump (target : String)
  | funCall (funcName : String) (args : List Ast)
  | ret (value : Option Ast)
  | funDef (name : String) (params : List (String × Ast)) (ret : Option Ast)
      (bbs : List Ast)
  | block (name : String) (stmts : List Ast)
  | funDecl (name : String) (params : List Ast) (ret : Option Ast)
  | phi (ty : Ast) (oprs : List (Ast × String))
  | endOfFile
  | error

end

/-- The span of an AST node. -/
def Ast.span : Ast → Span
  | .mk s _ => s

/-- The kind of an AST node. -/
def Ast.kind : Ast → AstKind
  | .mk _ k => k

mutual

/-- `impl PartialEq for Ast` (`ast.rs` 24-29): equality compares only the
kinds and ignores the `span` field. -/
def astEq : Ast → Ast → Bool
  | .mk _ k1, .mk _ k2 => astKindEq k1 k2
termination_by a _ => sizeOf a

/-- The `#[derive(PartialEq)]` equality of `AstKind`: same variant and
field-wise equality, where `AstBox` children compare via `astEq` (so via
`Ast`'s span-ignoring `PartialEq`). -/
def astKindEq : AstKind → AstKind → Bool
  | .intType, k2 => match k2 with
      | .intType => true
      | _ => false
  | .arrayType b1 l1, k2 => match k2 with
      | .arrayType b2 l2 => astEq b1 b2 && decide (l1 = l2)
      | _ => false
  | .pointerType b1, k2 => match k2 with
      | .pointerType b2 => astEq b1 b2
      | _ => false
  | .funType p1 r1, k2 => match k2 with
      | .funType p2 r2 => astListEq p1 p2 && astOptEq r1 r2
      | _ => false
  | .symbolRef s1, k2 => match k2 with
      | .symbolRef s2 => decide (s1 = s2)
      | _ => false
  | .intVal v1, k2 => match k2 with
      | .intVal v2 => decide (v1 = v2)
      | _ => false
  | .undefVal, k2 => match k2 with
      | .undefVal => true
      | _ => false
  | .aggregate e1, k2 => match k2 with
      | .aggregate e2 => astListEq e1 e2
      | _ => false
  | .zeroInit, k2 => match k2 with
      | .zeroInit => true
      | _ => false
  | .symbolDef n1 v1, k2 => match k2 with
      | .symbolDef n2 v2 => decide (n1 = n2) && astEq v1 v2
      | _ => false
  | .globalDef n1 v1, k2 => match k2 with
      | .globalDef n2 v2 => decide (n1 = n2) && astEq v1 v2
      | _ => false
  | .memDecl t1, k2 => match k2 with
      | .memDecl t2 => astEq t1 t2
      | _ => false
  | .globalDecl t1 i1, k2 => match k2 with
      | .globalDecl t2 i2 => astEq t1 t2 && astEq i1 i2
      | _ => false
  | .load s1, k2 => match k2 with
      | .load s2 => decide (s1 = s2)
      | _ => false
  | .store v1 s1, k2 => match k2 with
      | .store v2 s2 => astEq v1 v2 && decide (s1 = s2)
      | _ => false
  | .getPointer s1 v1, k2 => match k2 with
      | .getPointer s2 v2 => decide (s1 = s2) && astEq v1 v2
      | _ => false
  | .getElementPointer s1 v1, k2 => match k2 with
      | .getElementPointer s2 v2 => decide (s1 = s2) && astEq v1 v2
      | _ => false
  | .binaryExpr o1 l1 r1, k2 => match k2 with
      | .binaryExpr o2 l2 r2 => decide (o1 = o2) && astEq l1 l2 && astEq r1 r2
      | _ => false
  | .unaryExpr o1 v1, k2 => match k2 with
      | .unaryExpr o2 v2 => decide (o1 = o2) && astEq v1 v2
      | _ => false
  | .branch c1 t1 f1, k2 => match k2 with
      | .branch c2 t2 f2 => astEq c1 c2 && decide (t1 = t2) && decide (f1 = f2)
      | _ => false
  | .jump t1, k2 => match k2 with
      | .jump t2 => decide (t1 = t2)
      | _ => false
  | .funCall f1 a1, k2 => match k2 with
      | .funCall f2 a2 => decide (f1 = f2) && astListEq a1 a2
      | _ => false
  | .ret v1, k2 => match k2 with
      | .ret v2 => astOptEq v1 v2
      | _ => false
  | .funDef n1 p1 r1 b1, k2 => match k2 with
      | .funDef n2 p2 r2 b2 =>
          decide (n1 = n2) && astNamedListEq p1 p2 && astOptEq r1 r2 &&
            astListEq b1 b2
      | _ => false
  | .block n1 s1, k2 => match k2 with
      | .block n2 s2 => decide (n1 = n2) && astListEq s1 s2
      | _ => false
  | .funDecl n1 p1 r1, k2 => match k2 with
      | .funDecl n2 p2 r2 =>
          decide (n1 = n2) && astListEq p1 p2 && astOptEq r1 r2
      | _ => false
  | .phi t1 o1, k2 => match k2 with
      | .phi t2 o2 => astEq t1 t2 && astPhiListEq o1 o2
      | _ => false
  | .endOfFile, k2 => match k2 with
      | .endOfFile => true
      | _ => false
  | .error, k2 => match k2 with
      | .error => true
      | _ => false
termination_by k _ => sizeOf k

/-- `Vec<AstBox>` equality: element-wise. -/
def astListEq : List Ast → List Ast → Bool
  | [], [] => true
  | a :: as1, b :: bs => astEq a b && astListEq as1 bs
  | _, _ => false
termination_by l _ => sizeOf l

/-- `Option<AstBox>` equality. -/
def astOptEq : Option Ast → Option Ast → Bool
  | none, none => true
  | some a, some b => astEq a b
  | _, _ => false
termination_by o _ => sizeOf o

/-- `Vec<(String, AstBox)>` equality (the parameters of `FunDef`). -/
def astNamedListEq : List (String × Ast) → List (String × Ast) → Bool
  | [], [] => true
  | (n1, a1) :: ps, (n2, a2) :: qs => decide (n1 = n2) && astEq a1 a2 &&
      astNamedListEq ps qs
  | _, _ => false
termination_by l _ => sizeOf l

/-- `Vec<(AstBox, String)>` equality (the operands of `Phi`). -/
def astPhiListEq : List (Ast × String) → List (Ast × String) → Bool
  | [], [] => true
  | (a1, n1) :: ps, (a2, n2) :: qs => astEq a1 a2 && decide (n1 = n2) &&
      astPhiListEq ps qs
  | _, _ => false
termination_by l _ => sizeOf l

end

/-! ### Lemmas about the association-list map -/

theorem updV_cons (k : Value) (d : ValueData) (rest : VMap) (v : Value)
    (f : ValueData → ValueData) :
    updV ((k, d) :: rest) v f =
      (if k = v then (k, f d) else (k, d)) :: updV rest v f := rfl

theorem eraseV_cons (k : Value) (d : ValueData) (rest : VMap) (v : Value) :
    eraseV ((k, d) :: rest) v =
      if k = v then eraseV rest v else (k, d) :: eraseV rest v := by
  by_cases h : k = v
  · simp [eraseV, List.filter_cons, h]
  · simp [eraseV, List.filter_cons, h]

theorem lookupV_updV (m : VMap) (v w : Value) (f : ValueData → ValueData) :
    lookupV (updV m v f) w =
      if w = v then (lookupV m v).map f else lookupV m w := by
  induction m with
  | nil => simp [lookupV, updV]
  | cons p rest ih =>
      rcases p with ⟨k, d⟩
      rw [updV_cons]
      by_cases hk : k = v
      · subst hk
        by_cases hw : w = k
        · subst hw
          simp [lookupV]
        · have hw' : ¬k = w := fun h => hw h.symm
          simp [lookupV, hw, hw', ih]
      · by_cases hw : k = w
        · subst hw
          have hw' : ¬k = v := hk
          simp [lookupV, hk, fun h => hk (h : k = v), ih]
        · simp [lookupV, hk, hw, ih]

theorem lookupV_eraseV (m : VMap) (v w : Value) :
    lookupV (eraseV m v) w = if w = v then none else lookupV m w := by
  induction m with
  | nil => simp [lookupV, eraseV]
  | cons p rest ih =>
      rcases p with ⟨k, d⟩
      rw [eraseV_cons]
      by_cases hk : k = v
      · subst hk
        by_cases hw : w = k
        · subst hw
          simp [lookupV, ih]
        · have hw' : ¬k = w := fun h => hw h.symm
          simp [lookupV, hw, hw', ih]
      · by_cases hw : k = w
        · subst hw
          have hwv : ¬k = v := hk
          simp [lookupV, hwv, ih]
        · simp [lookupV, hk, hw, ih]

theorem mem_eraseV {m : VMap} {v : Value} {p : Value × ValueData} :
    p ∈ eraseV m v ↔ p ∈ m ∧ p.1 ≠ v := by
  simp [eraseV, List.mem_filter]

theorem lookupV_isSome_of_mem {m : VMap} {p : Value × ValueData}
    (h : p ∈ m) : ∃ d, lookupV m p.1 = some d := by
  induction m with
  | nil => cases h
  | cons q rest ih =>
      by_cases hq : q.1 = p.1
      · exact ⟨q.2, by simp [lookupV, hq]⟩
      · rcases List.mem_cons.1 h with h | h
        · exact absurd (h ▸ rfl) hq
        · rcases ih h with ⟨d, hd⟩
          exact ⟨d, by simp [lookupV, hq, hd]⟩

theorem lookupV_mem {m : VMap} {v : Value} {d : ValueData}
    (h : lookupV m v = some d) : (v, d) ∈ m := by
  induction m with
  | nil => simp [lookupV] at h
  | cons q rest ih =>
      rcases q with ⟨k, d0⟩
      by_cases hq : k = v
      · subst hq
        simp only [lookupV, eq_self_iff_true, if_true, Option.some.injEq] at h
        subst h
        exact List.mem_cons_self _ _
      · have hk : ((k, d0) : Value × ValueData).1 = k := rfl
        simp only [lookupV, hk, if_neg hq] at h
        exact List.mem_cons_of_mem _ (ih h)

theorem removeValue_lookup_some {m : VMap} {v : Value} {data : ValueData}
    (h : lookupV m v = some data) :
    removeValue m v =
      if data.used_by = ∅ then
        match applyUses (delUser v) (eraseV m v) (valueUses data.kind) with
        | .error e => .error e
        | .ok m1 => .ok (data, m1)
      else .error ("`value` is used by other values", eraseV m v) := by
  unfold removeValue
  rw [h]

/-! ### C1: `Program::remove_value` on a still-used value -/

/-- A global value data whose `used_by` set is non-empty. -/
def sampleUsed : ValueData :=
  { ty := .int32, name := none, kind := .integer 5, used_by := {1} }

/-- C1 counterexample: in the one-entry program holding `sampleUsed` at
handle 0, `remove_value(0)` fails as the claim says, but the map observable
at the failure is empty — handle 0 is gone — rather than "exactly as it was
before the call": the entry is removed before the `used_by` assertion runs. -/
theorem removeValue_partial_state_cex :
    removeValue [(0, sampleUsed)] 0 =
      .error ("`value` is used by other values", []) ∧
    lookupV [] 0 = none ∧ lookupV [(0, sampleUsed)] 0 = some sampleUsed := by
  refine ⟨?_, rfl, rfl⟩
  have h1 : lookupV [(0, sampleUsed)] 0 = some sampleUsed := rfl
  have h2 : sampleUsed.used_by ≠ ∅ := by decide
  rw [removeValue_lookup_some h1, if_neg h2,
    show eraseV [(0, sampleUsed)] 0 = [] from rfl]

/-- C1 (amended): removing a global value whose `used_by` set is non-empty
fails, and at the failure every remaining value's data (in particular every
`used_by` set) is exactly as before — but the failing value's own entry has
already been evicted: the map at the panic is the original map minus `v`. -/
theorem removeValue_used_fails_after_eviction (m : VMap) (v : Value)
    (data : ValueData) (hl : lookupV m v = some data)
    (hu : data.used_by ≠ ∅) :
    removeValue m v = .error ("`value` is used by other values", eraseV m v) := by
  rw [removeValue_lookup_some hl, if_neg hu]

/-- C1 witness: the amended theorem applied to the concrete one-entry
program. -/
theorem removeValue_used_fails_after_eviction_witness :
    removeValue [(0, sampleUsed)] 0 =
      .error ("`value` is used by other values", eraseV [(0, sampleUsed)] 0) :=
  removeValue_used_fails_after_eviction [(0, sampleUsed)] 0 sampleUsed rfl
    (by decide)

/-! ### C4: replacing all uses of a value with the value itself -/

/-- A core state with one pending use (use id 7) in value 0's use list. -/
def sampleCoreState : CoreState :=
  { useList := fun w => if w = 0 then [7] else [],
    useValue := fun _ => some 0 }

/-- C4 counterexample: `replace_all_uses_with` on value 0 with value 0
itself as the replacement does not return successfully — it trips the
`assert!` that the replacement differs from `self` — refuting the claim
that the call is a no-op that does not fail. -/
theorem replaceAllUsesWith_self_not_noop_cex :
    replaceAllUsesWith 0 (some 0) sampleCoreState =
      .error ("`value` can not be the same as `self`!", sampleCoreState) ∧
    ∀ st', replaceAllUsesWith 0 (some 0) sampleCoreState ≠ .ok st' := by
  refine ⟨rfl, fun st' h => ?_⟩
  rw [show replaceAllUsesWith 0 (some 0) sampleCoreState =
      .error ("`value` can not be the same as `self`!", sampleCoreState)
    from rfl] at h
  exact Except.noConfusion h

/-- C4 (amended): `replace_all_uses_with(a, a)` always fails loudly with
the "`value` can not be the same as `self`" assertion, and the failure is
raised before any mutation: the state at the failure is exactly the input
state (so every use list, in particular `a`'s own, is unchanged). -/
theorem replaceAllUsesWith_self_fails (a : Nat) (st : CoreState) :
    replaceAllUsesWith a (some a) st =
      .error ("`value` can not be the same as `self`!", st) := by
  simp [replaceAllUsesWith]

/-! ### C6: setting a value's name -/

/-- C6 counterexample: `ValueData::set_name` (`entities.rs`) stores the
one-character name `"x"` — which the claim says must be rejected — without
any failure. -/
theorem valueData_setName_unchecked_cex :
    ((ValueData.new .int32 (.integer 0)).setName (some "x")).name = some "x" ∧
    validName "x" = false := by
  exact ⟨rfl, by decide⟩

/-- C6 (amended): `ValueInner::set_name` (`core.rs`) implements the
claimed contract — a present name of length ≤ 1 or not beginning with
`'%'`/`'@'` fails loudly with the name unchanged, and any other argument
is stored exactly — while `ValueData::set_name` (`entities.rs`) stores the
given name unconditionally, touching no other field. -/
theorem setName_validation :
    (∀ (inner : ValueInner) (n : Option String), validNameOpt n = false →
      ValueInner.setName inner n = .error "invalid value name") ∧
    (∀ (inner : ValueInner) (n : Option String), validNameOpt n = true →
      ValueInner.setName inner n = .ok { inner with name := n }) ∧
    (∀ (d : ValueData) (n : Option String),
      (d.setName n).name = n ∧ (d.setName n).ty = d.ty ∧
        (d.setName n).kind = d.kind ∧ (d.setName n).used_by = d.used_by) := by
  refine ⟨fun inner n h => ?_, fun inner n h => ?_,
    fun d n => ⟨rfl, rfl, rfl, rfl⟩⟩
  · simp [ValueInner.setName, h]
  · simp [ValueInner.setName, h]

/-- C6 witness: the amended theorem applied to a concrete inner at the
invalid name `"x"` and at the valid name `"%a"`. -/
theorem setName_validation_witness :
    ValueInner.setName ⟨none, [], none⟩ (some "x") =
      .error "invalid value name" ∧
    ValueInner.setName ⟨none, [], none⟩ (some "%a") =
      .ok ⟨some "%a", [], none⟩ :=
  ⟨setName_validation.1 ⟨none, [], none⟩ (some "x") (by decide),
   setName_validation.2.1 ⟨none, [], none⟩ (some "%a") (by decide)⟩

/-! ### C7: basic-block construction with parameters -/

/-- C7 counterexample: `with_params` succeeds for a block type
`BasicBlock(i32)` even though the sole parameter value (handle 5) has type
`*i32` in its data — the per-element type agreement the claim requires is
never checked (the constructor never sees the parameter values' data). -/
theorem withParams_ignores_param_types_cex :
    BasicBlockData.withParams none [5] (.basicBlock [.int32]) =
      .ok ⟨.basicBlock [.int32], none, [5], ∅⟩ ∧
    lookupV [(5, ValueData.new (.pointer .int32) .alloc)] 5 =
      some (ValueData.new (.pointer .int32) .alloc) ∧
    (ValueData.new (.pointer .int32) .alloc).ty ≠ TypeK.int32 := by
  exact ⟨rfl, rfl, fun h => TypeK.noConfusion h⟩

/-- C7 (amended): `with_params` succeeds exactly when the given type is a
`BasicBlock` type whose parameter-type list has the same length as the
given parameter list — the i-th parameter type is not compared against the
type of the i-th parameter value — and on success it stores exactly the
given type, name and parameters with an empty `used_by`. -/
theorem withParams_checks_length_only (name : Option String)
    (params : List Value) (ty : TypeK) :
    (∀ bbd, BasicBlockData.withParams name params ty = .ok bbd →
      bbd = ⟨ty, name, params, ∅⟩) ∧
    ((∃ p, ty = .basicBlock p ∧ p.length = params.length) ↔
      ∃ bbd, BasicBlockData.withParams name params ty = .ok bbd) := by
  constructor
  · intro bbd h
    by_cases hv : isValidBBType ty params.length
    · simp only [BasicBlockData.withParams, hv, if_true, Except.ok.injEq] at h
      exact h.symm
    · simp [BasicBlockData.withParams, hv] at h
  · constructor
    · rintro ⟨p, rfl, hlen⟩
      refine ⟨⟨.basicBlock p, name, params, ∅⟩, ?_⟩
      simp [BasicBlockData.withParams, isValidBBType, hlen]
    · rintro ⟨bbd, h⟩
      by_cases hv : isValidBBType ty params.length
      · cases ty with
        | basicBlock p =>
            exact ⟨p, rfl, by simpa [isValidBBType] using hv⟩
        | unit => simp [isValidBBType] at hv
        | int32 => simp [isValidBBType] at hv
        | array b n => simp [isValidBBType] at hv
        | pointer b => simp [isValidBBType] at hv
        | function p r => simp [isValidBBType] at hv
      · simp [BasicBlockData.withParams, hv] at h

/-- C7 witness: the amended theorem applied to the empty parameter list
and the parameterless basic-block type. -/
theorem withParams_checks_length_only_witness :
    ∃ bbd, BasicBlockData.withParams none ([] : List Value)
      (.basicBlock []) = .ok bbd :=
  (withParams_checks_length_only none [] (.basicBlock [])).2.mp ⟨[], rfl, rfl⟩

/-! ### C8: type printing -/

theorem str_empty_append (s : String) : "" ++ s = s := rfl

theorem str_append_empty (s : String) : s ++ "" = s := by
  cases s with
  | mk l => exact congrArg String.mk (List.append_nil l)

theorem str_append_assoc (a b c : String) : a ++ b ++ c = a ++ (b ++ c) := by
  cases a with | mk la => cases b with | mk lb => cases c with | mk lc =>
    exact congrArg String.mk (List.append_assoc la lb lc)

/-- The spec's "parenthesized comma-separated list", stated directly:
elements joined by `", "`. -/
def commaSep : List String → String
  | [] => ""
  | [s] => s
  | s :: rest => s ++ ", " ++ commaSep rest

theorem printArgs_eq_commaSep : ∀ l : List TypeTree,
    printArgs l true = commaSep (l.map printType) ∧
    (l ≠ [] → printArgs l false = ", " ++ commaSep (l.map printType)) := by
  intro l
  induction l with
  | nil => exact ⟨rfl, fun h => absurd rfl h⟩
  | cons t rest ih =>
      cases rest with
      | nil =>
          constructor
          · show "" ++ printType t ++ printArgs [] false = commaSep _
            rw [str_empty_append, show printArgs [] false = "" from rfl,
              str_append_empty]
            rfl
          · intro _
            show ", " ++ printType t ++ printArgs [] false = _
            rw [show printArgs [] false = "" from rfl, str_append_empty]
            rfl
      | cons r rs =>
          have hr := ih.2 (List.cons_ne_nil r rs)
          constructor
          · show "" ++ printType t ++ printArgs (r :: rs) false = _
            rw [str_empty_append, hr]
            show _ = printType t ++ ", " ++ commaSep (printType r :: rs.map printType)
            rw [str_append_assoc]
            rfl
          · intro _
            show ", " ++ printType t ++ printArgs (r :: rs) false = _
            rw [hr]
            show _ = ", " ++ (printType t ++ ", " ++
              commaSep (printType r :: rs.map printType))
            rw [str_append_assoc, str_append_assoc]
            rfl

/-- C8 counterexample: the pointer type `Pointer(Int32)` prints as
`"i32*"` — the base type followed by `"*"` — not as `"*"` followed by the
base type, as the claim states. -/
theorem printType_pointer_postfix_cex :
    printType (.pointer .int32) = "i32*" ∧
    printType (.pointer .int32) ≠ "*" ++ "i32" := by
  constructor
  · rfl
  · rw [show printType (.pointer .int32) = "i32*" from rfl]
    decide

/-- C8 (amended): type printing follows the grammar with the pointer case
postfix: `Int32` prints as `"i32"`, `Array(T, N)` as the printing of `T`
followed by `"[N]"`, `Pointer(T)` as the printing of `T` followed by
`"*"`, and `Function(ret?, params)` as the optional return type followed
by the comma-separated parameter list in parentheses. -/
theorem printType_grammar :
    printType .int32 = "i32" ∧
    (∀ t n, printType (.array t n) =
      printType t ++ "[" ++ toString n ++ "]") ∧
    (∀ t, printType (.pointer t) = printType t ++ "*") ∧
    (∀ ret args, printType (.function ret args) =
      (match ret with | some r => printType r | none => "") ++ "(" ++
        commaSep (args.map printType) ++ ")") := by
  refine ⟨rfl, fun t n => rfl, fun t => rfl, fun ret args => ?_⟩
  show printRet ret ++ "(" ++ printArgs args true ++ ")" = _
  rw [(printArgs_eq_commaSep args).1]
  cases ret <;> rfl

/-! ### C3: hash-consing identity of the type factory -/

theorem lookupT_mem {l : List (TypeData × Nat)} {d : TypeData} {t : Nat}
    (h : lookupT l d = some t) : (d, t) ∈ l := by
  induction l with
  | nil => simp [lookupT] at h
  | cons q rest ih =>
      rcases q with ⟨d0, t0⟩
      by_cases hq : d0 = d
      · subst hq
        simp only [lookupT, eq_self_iff_true, if_true, Option.some.injEq] at h
        subst h
        exact List.mem_cons_self _ _
      · have hk : ((d0, t0) : TypeData × Nat).1 = d0 := rfl
        simp only [lookupT, hk, if_neg hq] at h
        exact List.mem_cons_of_mem _ (ih h)

theorem lookupT_isSome_of_mem {l : List (TypeData × Nat)} {d : TypeData}
    {t : Nat} (h : (d, t) ∈ l) : ∃ t', lookupT l d = some t' := by
  induction l with
  | nil => cases h
  | cons q rest ih =>
      by_cases hq : q.1 = d
      · exact ⟨q.2, by simp [lookupT, hq]⟩
      · rcases List.mem_cons.1 h with h | h
        · exact absurd (h ▸ rfl : q.1 = d) hq
        · rcases ih h with ⟨t', ht⟩
          exact ⟨t', by simp [lookupT, hq, ht]⟩

/-- C3: on a well-formed factory, interning `d₁` and then `d₂` (on the
factory state the first call returned) yields handles that are equal iff
`d₁` and `d₂` are structurally equal — the structural equality being the
derived one of `TypeData`, whose `Type` children compare by pointer
identity. -/
theorem typeFactory_intern_identity (f : TypeFactory) (d1 d2 : TypeData)
    (t1 t2 : Nat) (f1 f2 : TypeFactory) (hf : f.WF)
    (h1 : getType f d1 = (t1, f1)) (h2 : getType f1 d2 = (t2, f2)) :
    t1 = t2 ↔ d1 = d2 := by
  obtain ⟨hbound, hkeyfun, hvalinj⟩ := hf
  unfold getType at h1 h2
  cases hl1 : lookupT f.types d1 with
  | some t =>
      rw [hl1] at h1
      injection h1 with ht1 hf1
      subst ht1
      subst hf1
      cases hl2 : lookupT f.types d2 with
      | some t' =>
          rw [hl2] at h2
          injection h2 with ht2 hf2
          subst ht2
          constructor
          · intro h
            subst h
            exact hvalinj _ (lookupT_mem hl1) _ (lookupT_mem hl2) rfl
          · intro h
            subst h
            rw [hl1] at hl2
            exact Option.some_injective _ hl2
      | none =>
          rw [hl2] at h2
          injection h2 with ht2 hf2
          subst ht2
          have hlt : t < f.next := hbound _ (lookupT_mem hl1)
          constructor
          · intro h
            exact absurd h (Nat.ne_of_lt hlt)
          · intro h
            subst h
            rw [hl1] at hl2
            cases hl2
  | none =>
      rw [hl1] at h1
      injection h1 with ht1 hf1
      subst ht1
      by_cases hd : d1 = d2
      · subst hd
        have hl2 : lookupT f1.types d1 = some f.next := by
          rw [← hf1]
          simp [lookupT]
        rw [hl2] at h2
        injection h2 with ht2 hf2
        subst ht2
        simp
      · have hl2 : lookupT f1.types d2 = lookupT f.types d2 := by
          rw [← hf1]
          simp [lookupT, hd]
        rw [hl2] at h2
        cases hl2' : lookupT f.types d2 with
        | some t' =>
            rw [hl2'] at h2
            injection h2 with ht2 hf2
            subst ht2
            have hlt : t' < f.next := hbound _ (lookupT_mem hl2')
            constructor
            · intro h
              exact absurd h.symm (Nat.ne_of_lt hlt)
            · intro h
              exact absurd h hd
        | none =>
            rw [hl2'] at h2
            have hnext : f1.next = f.next + 1 := by rw [← hf1]
            rw [hnext] at h2
            injection h2 with ht2 hf2
            subst ht2
            constructor
            · intro h
              omega
            · intro h
              exact absurd h hd

/-- C3 witness: interning `Int32` twice on the empty factory returns the
same handle. -/
theorem typeFactory_intern_identity_witness :
    (getType ⟨[], 0⟩ .int32).1 = (getType (getType ⟨[], 0⟩ .int32).2 .int32).1 :=
  (typeFactory_intern_identity ⟨[], 0⟩ .int32 .int32 0 0
      ⟨[(.int32, 0)], 1⟩ ⟨[(.int32, 0)], 1⟩
      ⟨fun p hp => absurd hp (List.not_mem_nil p),
       fun p hp => absurd hp (List.not_mem_nil p),
       fun p hp => absurd hp (List.not_mem_nil p)⟩
      rfl rfl).mpr rfl

/-! ### C9: foreign-call arity cap and result materialisation -/

/-- C9: with at most 28 arguments the collaborator calls the resolved
symbol on the marshalled argument words and materialises the word result
by declared return type (`Int32` to an integer, `Unit` to an undefined
value, array or pointer types to a pointer value); with more than 28
arguments it reports the "argument number exceeded" error instead. -/
theorem callExtFunc_arity_and_result (g : List Nat → Nat) (args : List Val)
    (retTy : TypeK) :
    (28 < args.length →
      callExtFunc g args retTy =
        .error "argument number exceeded in external function call") ∧
    (args.length ≤ 28 →
      (retTy = .int32 → callExtFunc g args retTy =
        .ok (some (.int (usizeToI32 (g (args.map valToUsize)))))) ∧
      (retTy = .unit → callExtFunc g args retTy = .ok (some .undef)) ∧
      (∀ b n, retTy = .array b n → callExtFunc g args retTy =
        .ok (some (.rawPtr (nonNullNew (g (args.map valToUsize)))))) ∧
      (∀ b, retTy = .pointer b → callExtFunc g args retTy =
        .ok (some (.rawPtr (nonNullNew (g (args.map valToUsize))))))) := by
  constructor
  · intro h
    simp [callExtFunc, Nat.not_le.2 h]
  · intro h
    refine ⟨fun ht => ?_, fun ht => ?_, fun b n ht => ?_, fun b ht => ?_⟩ <;>
      subst ht <;> simp [callExtFunc, h, usizeToVal]

/-- C9 witness: the theorem applied to a zero-argument call returning an
`i32`, and to a 29-argument call. -/
theorem callExtFunc_arity_and_result_witness :
    callExtFunc (fun _ => 7) [] .int32 = .ok (some (.int (usizeToI32 7))) ∧
    callExtFunc (fun _ => 7) (List.replicate 29 .undef) .int32 =
      .error "argument number exceeded in external function call" :=
  ⟨((callExtFunc_arity_and_result (fun _ => 7) [] .int32).2 (by decide)).1 rfl,
   (callExtFunc_arity_and_result (fun _ => 7) (List.replicate 29 .undef)
      .int32).1 (by simp)⟩

/-! ### C5: order of the `ValueUses` iterator -/

/-- C5: at every index, the `ValueUses` iterator step yields exactly the
corresponding element of the per-kind operand list — for `Branch` the
condition, then the true-arguments in order, then the false-arguments in
order; for `Store` the value then the dest; for `GetPtr`/`GetElemPtr` the
src then the index; for `Binary` the lhs then the rhs; for
`Jump`/`Call`/`Aggregate` the elements in order; for `Return` the optional
value; for `GlobalAlloc` the initializer; and nothing for every other
kind — so the iterator yields that list, in that order, and then stops. -/
theorem valueUses_iterator_order (kind : ValueKind) (cur : Nat) :
    valueUsesNext kind cur = (valueUses kind).get? cur := by
  cases kind with
  | integer v => cases cur <;> simp [valueUsesNext, valueUses]
  | zeroInit => cases cur <;> simp [valueUsesNext, valueUses]
  | undef => cases cur <;> simp [valueUsesNext, valueUses]
  | aggregate elems => simp [valueUsesNext, valueUses]
  | funcArgRef i => cases cur <;> simp [valueUsesNext, valueUses]
  | blockArgRef b i => cases cur <;> simp [valueUsesNext, valueUses]
  | alloc => cases cur <;> simp [valueUsesNext, valueUses]
  | globalAlloc init =>
      rcases cur with _ | j <;> simp [valueUsesNext, valueUses]
  | load src => rcases cur with _ | j <;> simp [valueUsesNext, valueUses]
  | store v d =>
      rcases cur with _ | _ | j <;> simp [valueUsesNext, valueUses]
  | getPtr s i =>
      rcases cur with _ | _ | j <;> simp [valueUsesNext, valueUses]
  | getElemPtr s i =>
      rcases cur with _ | _ | j <;> simp [valueUsesNext, valueUses]
  | binary op l r =>
      rcases cur with _ | _ | j <;> simp [valueUsesNext, valueUses]
  | jump t args => simp [valueUsesNext, valueUses]
  | call f args => simp [valueUsesNext, valueUses]
  | ret v =>
      cases v with
      | none => rcases cur with _ | j <;> simp [valueUsesNext, valueUses]
      | some x => rcases cur with _ | j <;> simp [valueUsesNext, valueUses]
  | branch c tb ta fb fa =>
      rcases cur with _ | j
      · simp [valueUsesNext, valueUses]
      · simp only [valueUsesNext, valueUses, Nat.succ_ne_zero, if_false]
        rw [List.get?_cons_succ]
        by_cases hj : j < ta.length
        · rw [if_pos ⟨Nat.succ_le_succ (Nat.zero_le j), hj⟩,
            List.get?_append hj]
          congr 1
        · have h1 : ¬(1 ≤ j + 1 ∧ j + 1 ≤ ta.length) := by omega
          rw [if_neg h1,
            List.get?_append_right (Nat.le_of_not_lt hj)]
          by_cases hj2 : j - ta.length < fa.length
          · have h2 : ta.length < j + 1 ∧
                j + 1 ≤ ta.length + fa.length := by omega
            rw [if_pos h2]
            congr 1
            omega
          · have h2 : ¬(ta.length < j + 1 ∧
                j + 1 ≤ ta.length + fa.length) := by omega
            rw [if_neg h2, eq_comm]
            exact List.get?_eq_none.2 (by omega)

/-! ### C2: use symmetry is preserved by the Program mutations -/

theorem addUser_idem (v : Value) (d : ValueData) :
    addUser v (addUser v d) = addUser v d := by
  simp [addUser, Finset.insert_idem]

theorem delUser_idem (v : Value) (d : ValueData) :
    delUser v (delUser v d) = delUser v d := by
  simp [delUser, Finset.erase_idem]

theorem applyUses_cons (f : ValueData → ValueData) (m : VMap) (u : Value)
    (rest : List Value) :
    applyUses f m (u :: rest) =
      match lookupV m u with
      | none => .error ("value does not exist", m)
      | some _ => applyUses f (updV m u f) rest := rfl

theorem applyUses_ok_mem {f : ValueData → ValueData} {us : List Value} :
    ∀ {m m' : VMap}, applyUses f m us = .ok m' →
      ∀ u ∈ us, ∃ d, lookupV m u = some d := by
  induction us with
  | nil => intro m m' _ u hu; cases hu
  | cons u0 rest ih =>
      intro m m' h u hu
      cases hl : lookupV m u0 with
      | none =>
          rw [applyUses_cons, hl] at h
          cases h
      | some d0 =>
          rcases List.mem_cons.1 hu with rfl | hu
          · exact ⟨d0, hl⟩
          · rw [applyUses_cons, hl] at h
            rcases ih h u hu with ⟨d, hd⟩
            rw [lookupV_updV] at hd
            by_cases huu : u = u0
            · subst huu
              exact ⟨d0, hl⟩
            · rw [if_neg huu] at hd
              exact ⟨d, hd⟩

theorem updV_eq_map (m : VMap) (v : Value) (f : ValueData → ValueData) :
    updV m v f = m.map fun p => (p.1, if p.1 = v then f p.2 else p.2) := by
  unfold updV
  apply List.map_congr_left
  intro p _
  by_cases h : p.1 = v <;> simp [h]

theorem applyUses_ok_eq {f : ValueData → ValueData}
    (hff : ∀ d, f (f d) = f d) {us : List Value} :
    ∀ {m m' : VMap}, applyUses f m us = .ok m' →
      m' = m.map fun p => (p.1, if p.1 ∈ us then f p.2 else p.2) := by
  induction us with
  | nil =>
      intro m m' h
      cases h
      simp
  | cons u0 rest ih =>
      intro m m' h
      cases hl : lookupV m u0 with
      | none =>
          rw [applyUses_cons, hl] at h
          cases h
      | some d0 =>
          rw [applyUses_cons, hl] at h
          rw [ih h, updV_eq_map, List.map_map]
          apply List.map_congr_left
          intro p _
          simp only [Function.comp]
          by_cases hpu : p.1 = u0
          · by_cases hpr : p.1 ∈ rest <;>
              simp [hpu, hpr, hff, List.mem_cons]
          · by_cases hpr : p.1 ∈ rest <;>
              simp [hpu, hpr, List.mem_cons]

theorem lookupV_mapIf (m : VMap) (us : List Value)
    (f : ValueData → ValueData) (w : Value) :
    lookupV (m.map fun p => (p.1, if p.1 ∈ us then f p.2 else p.2)) w =
      (lookupV m w).map fun d => if w ∈ us then f d else d := by
  induction m with
  | nil => simp [lookupV]
  | cons p rest ih =>
      rcases p with ⟨k, d⟩
      by_cases hkw : k = w
      · subst hkw
        simp [lookupV]
      · simp [lookupV, hkw, ih]

theorem kind_if_addUser (c : Prop) [Decidable c] (v : Value) (d : ValueData) :
    (if c then addUser v d else d).kind = d.kind := by
  split <;> rfl

theorem kind_if_delUser (c : Prop) [Decidable c] (v : Value) (d : ValueData) :
    (if c then delUser v d else d).kind = d.kind := by
  split <;> rfl

theorem removeValue_lookup_none {m : VMap} {v : Value}
    (h : lookupV m v = none) :
    removeValue m v = .error ("`value` does not exist", m) := by
  unfold removeValue
  rw [h]

/-- C2: both global-map mutations of `Program` preserve use symmetry.
`new_value` (with a fresh handle and, as for every `ValueData` a caller
can reach, an empty `used_by`) and `remove_value` return only states in
which every operand of every global value exists and records it as a user,
and every recorded user exists and names the value in an operand slot. -/
theorem use_symmetry_preserved :
    (∀ (m : VMap) (v : Value) (data : ValueData) (m' : VMap),
      UseSym m → data.used_by = ∅ → lookupV m v = none →
      newValue m v data = .ok m' → UseSym m') ∧
    (∀ (m : VMap) (v : Value) (d : ValueData) (m' : VMap),
      UseSym m → removeValue m v = .ok (d, m') → UseSym m') := by
  constructor
  · intro m v data m' hsym hdu hfresh hok
    cases happ : applyUses (addUser v) m (valueUses data.kind) with
    | error e =>
        rw [show newValue m v data =
            match applyUses (addUser v) m (valueUses data.kind) with
            | .error e => .error e
            | .ok m1 => .ok ((v, data) :: m1) from rfl, happ] at hok
        cases hok
    | ok m1 =>
        rw [show newValue m v data =
            match applyUses (addUser v) m (valueUses data.kind) with
            | .error e => .error e
            | .ok m1 => .ok ((v, data) :: m1) from rfl, happ] at hok
        injection hok with hok
        subst hok
        have hm1 := applyUses_ok_eq (addUser_idem v) happ
        have hmem := applyUses_ok_mem happ
        subst hm1
        constructor
        · rintro p hp u hu
          rcases List.mem_cons.1 hp with rfl | hp
          · rcases hmem u hu with ⟨d0, hd0⟩
            have hune : v ≠ u := by
              intro h
              rw [← h, hfresh] at hd0
              cases hd0
            refine ⟨addUser v d0, ?_, ?_⟩
            · show (if v = u then some data else _) = _
              rw [if_neg hune, lookupV_mapIf, hd0, Option.map_some',
                if_pos hu]
            · exact Finset.mem_insert_self v d0.used_by
          · rcases List.mem_map.1 hp with ⟨q, hq, rfl⟩
            have hu2 : u ∈ valueUses (if q.1 ∈ valueUses data.kind then
                addUser v q.2 else q.2).kind := hu
            rw [kind_if_addUser] at hu2
            rcases hsym.1 q hq u hu2 with ⟨du, hlu, hqu⟩
            have hune : v ≠ u := by
              intro h
              rw [← h, hfresh] at hlu
              cases hlu
            refine ⟨if u ∈ valueUses data.kind then addUser v du else du,
              ?_, ?_⟩
            · show (if v = u then some data else _) = _
              rw [if_neg hune, lookupV_mapIf, hlu, Option.map_some']
            · show q.1 ∈ (if u ∈ valueUses data.kind then
                addUser v du else du).used_by
              by_cases hcu : u ∈ valueUses data.kind
              · rw [if_pos hcu]
                exact Finset.mem_insert_of_mem hqu
              · rw [if_neg hcu]
                exact hqu
        · rintro p hp w hw
          rcases List.mem_cons.1 hp with rfl | hp
          · have hw2 : w ∈ data.used_by := hw
            rw [hdu] at hw2
            exact absurd hw2 (Finset.not_mem_empty w)
          · rcases List.mem_map.1 hp with ⟨q, hq, rfl⟩
            have hw2 : w ∈ (if q.1 ∈ valueUses data.kind then
                addUser v q.2 else q.2).used_by := hw
            by_cases hqu : q.1 ∈ valueUses data.kind
            · rw [if_pos hqu] at hw2
              rcases Finset.mem_insert.1 hw2 with rfl | hw3
              · refine ⟨data, ?_, hqu⟩
                show (if w = w then some data else _) = some data
                rw [if_pos rfl]
              · rcases hsym.2 q hq w hw3 with ⟨dw, hlw, hqw⟩
                have hwv : v ≠ w := by
                  intro h
                  rw [← h, hfresh] at hlw
                  cases hlw
                refine ⟨if w ∈ valueUses data.kind then addUser v dw else dw,
                  ?_, ?_⟩
                · show (if v = w then some data else _) = _
                  rw [if_neg hwv, lookupV_mapIf, hlw, Option.map_some']
                · show q.1 ∈ valueUses (if w ∈ valueUses data.kind then
                    addUser v dw else dw).kind
                  rw [kind_if_addUser]
                  exact hqw
            · rw [if_neg hqu] at hw2
              rcases hsym.2 q hq w hw2 with ⟨dw, hlw, hqw⟩
              have hwv : v ≠ w := by
                intro h
                rw [← h, hfresh] at hlw
                cases hlw
              refine ⟨if w ∈ valueUses data.kind then addUser v dw else dw,
                ?_, ?_⟩
              · show (if v = w then some data else _) = _
                rw [if_neg hwv, lookupV_mapIf, hlw, Option.map_some']
              · show q.1 ∈ valueUses (if w ∈ valueUses data.kind then
                  addUser v dw else dw).kind
                rw [kind_if_addUser]
                exact hqw
  · intro m v d m' hsym hok
    cases hl : lookupV m v with
    | none =>
        rw [removeValue_lookup_none hl] at hok
        cases hok
    | some data =>
        rw [removeValue_lookup_some hl] at hok
        by_cases hdu : data.used_by = ∅
        · rw [if_pos hdu] at hok
          cases happ : applyUses (delUser v) (eraseV m v)
              (valueUses data.kind) with
          | error e =>
              rw [happ] at hok
              cases hok
          | ok m1 =>
              rw [happ] at hok
              injection hok with hok
              injection hok with hok1 hok2
              subst hok1
              subst hok2
              have hm1 := applyUses_ok_eq (delUser_idem v) happ
              subst hm1
              constructor
              · rintro p hp u hu
                rcases List.mem_map.1 hp with ⟨q, hq0, rfl⟩
                obtain ⟨hqm, hqv⟩ := mem_eraseV.1 hq0
                have hu2 : u ∈ valueUses (if q.1 ∈ valueUses data.kind then
                    delUser v q.2 else q.2).kind := hu
                rw [kind_if_delUser] at hu2
                rcases hsym.1 q hqm u hu2 with ⟨du, hlu, hqu⟩
                have hune : u ≠ v := by
                  intro h
                  rw [h, hl] at hlu
                  injection hlu with hlu
                  subst hlu
                  rw [hdu] at hqu
                  exact absurd hqu (Finset.not_mem_empty _)
                refine ⟨if u ∈ valueUses data.kind then delUser v du else du,
                  ?_, ?_⟩
                · rw [lookupV_mapIf, lookupV_eraseV, if_neg hune, hlu,
                    Option.map_some']
                · show q.1 ∈ (if u ∈ valueUses data.kind then
                    delUser v du else du).used_by
                  by_cases hcu : u ∈ valueUses data.kind
                  · rw [if_pos hcu]
                    exact Finset.mem_erase_of_ne_of_mem hqv hqu
                  · rw [if_neg hcu]
                    exact hqu
              · rintro p hp w hw
                rcases List.mem_map.1 hp with ⟨q, hq0, rfl⟩
                obtain ⟨hqm, hqv⟩ := mem_eraseV.1 hq0
                have hw2 : w ∈ (if q.1 ∈ valueUses data.kind then
                    delUser v q.2 else q.2).used_by := hw
                have hw3 : w ∈ q.2.used_by := by
                  by_cases hqu : q.1 ∈ valueUses data.kind
                  · rw [if_pos hqu] at hw2
                    exact Finset.mem_of_mem_erase hw2
                  · rwa [if_neg hqu] at hw2
                have hwv : w ≠ v := by
                  by_cases hqu : q.1 ∈ valueUses data.kind
                  · rw [if_pos hqu] at hw2
                    exact Finset.ne_of_mem_erase hw2
                  · intro h
                    subst h
                    rcases hsym.2 q hqm w hw3 with ⟨dv, hlv, hqv'⟩
                    rw [hl] at hlv
                    injection hlv with hlv
                    subst hlv
                    exact hqu hqv'
                rcases hsym.2 q hqm w hw3 with ⟨dw, hlw, hqw⟩
                refine ⟨if w ∈ valueUses data.kind then delUser v dw else dw,
                  ?_, ?_⟩
                · rw [lookupV_mapIf, lookupV_eraseV, if_neg hwv, hlw,
                    Option.map_some']
                · show q.1 ∈ valueUses (if w ∈ valueUses data.kind then
                    delUser v dw else dw).kind
                  rw [kind_if_delUser]
                  exact hqw
        · rw [if_neg hdu] at hok
          cases hok

/-- C2 witness: starting from the empty program (symmetric), adding the
constant 1 under handle 0 yields a symmetric map, and removing it again
yields a symmetric map. -/
theorem use_symmetry_preserved_witness :
    UseSym [(0, ValueData.new .int32 (.integer 1))] ∧ UseSym [] := by
  have h0 : UseSym ([] : VMap) :=
    ⟨fun p hp => absurd hp (List.not_mem_nil p),
     fun p hp => absurd hp (List.not_mem_nil p)⟩
  have h1 : UseSym [(0, ValueData.new .int32 (.integer 1))] :=
    use_symmetry_preserved.1 [] 0 (ValueData.new .int32 (.integer 1))
      [(0, ValueData.new .int32 (.integer 1))] h0 rfl rfl rfl
  exact ⟨h1, use_symmetry_preserved.2
    [(0, ValueData.new .int32 (.integer 1))] 0
    (ValueData.new .int32 (.integer 1)) [] h1 rfl⟩

/-! ### C10: AST equality ignores spans -/

set_option maxHeartbeats 1000000 in
mutual

theorem astEq_refl : ∀ a : Ast, astEq a a = true
  | .mk s k => by
      simp only [astEq]
      exact astKindEq_refl k

theorem astKindEq_refl : ∀ k : AstKind, astKindEq k k = true
  | .intType => by simp [astKindEq]
  | .arrayType b l => by simp [astKindEq, astEq_refl b]
  | .pointerType b => by simp [astKindEq, astEq_refl b]
  | .funType p r => by simp [astKindEq, astListEq_refl p, astOptEq_refl r]
  | .symbolRef s => by simp [astKindEq]
  | .intVal v => by simp [astKindEq]
  | .undefVal => by simp [astKindEq]
  | .aggregate e => by simp [astKindEq, astListEq_refl e]
  | .zeroInit => by simp [astKindEq]
  | .symbolDef n a => by simp [astKindEq, astEq_refl a]
  | .globalDef n a => by simp [astKindEq, astEq_refl a]
  | .memDecl t => by simp [astKindEq, astEq_refl t]
  | .globalDecl t i => by simp [astKindEq, astEq_refl t, astEq_refl i]
  | .load s => by simp [astKindEq]
  | .store a s => by simp [astKindEq, astEq_refl a]
  | .getPointer s a => by simp [astKindEq, astEq_refl a]
  | .getElementPointer s a => by simp [astKindEq, astEq_refl a]
  | .binaryExpr o a b => by simp [astKindEq, astEq_refl a, astEq_refl b]
  | .unaryExpr o a => by simp [astKindEq, astEq_refl a]
  | .branch a t f => by simp [astKindEq, astEq_refl a]
  | .jump t => by simp [astKindEq]
  | .funCall f a => by simp [astKindEq, astListEq_refl a]
  | .ret v => by simp [astKindEq, astOptEq_refl v]
  | .funDef n p r b => by
      simp [astKindEq, astNamedListEq_refl p, astOptEq_refl r,
        astListEq_refl b]
  | .block n s => by simp [astKindEq, astListEq_refl s]
  | .funDecl n p r => by
      simp [astKindEq, astListEq_refl p, astOptEq_refl r]
  | .phi t o => by simp [astKindEq, astEq_refl t, astPhiListEq_refl o]
  | .endOfFile => by simp [astKindEq]
  | .error => by simp [astKindEq]

theorem astListEq_refl : ∀ l : List Ast, astListEq l l = true
  | [] => by simp [astListEq]
  | a :: as1 => by simp [astListEq, astEq_refl a, astListEq_refl as1]

theorem astOptEq_refl : ∀ o : Option Ast, astOptEq o o = true
  | none => by simp [astOptEq]
  | some a => by simp [astOptEq, astEq_refl a]

theorem astNamedListEq_refl :
    ∀ l : List (String × Ast), astNamedListEq l l = true
  | [] => by simp [astNamedListEq]
  | (n, a) :: ps => by
      simp [astNamedListEq, astEq_refl a, astNamedListEq_refl ps]

theorem astPhiListEq_refl :
    ∀ l : List (Ast × String), astPhiListEq l l = true
  | [] => by simp [astPhiListEq]
  | (a, n) :: ps => by
      simp [astPhiListEq, astEq_refl a, astPhiListEq_refl ps]

end

/-- C10: AST equality compares only the kinds — for all nodes it coincides
with kind equality whatever the spans are, and two nodes with equal kinds
(but arbitrary, possibly different, spans) always compare equal. -/
theorem astEq_ignores_span :
    (∀ a b : Ast, astEq a b = astKindEq a.kind b.kind) ∧
    (∀ a b : Ast, a.kind = b.kind → astEq a b = true) := by
  constructor
  · intro a b
    cases a with
    | mk s1 k1 =>
        cases b with
        | mk s2 k2 =>
            simp only [astEq, Ast.kind]
  · intro a b h
    cases a with
    | mk s1 k1 =>
        cases b with
        | mk s2 k2 =>
            have h2 : k1 = k2 := h
            subst h2
            simp only [astEq]
            exact astKindEq_refl k1

/-- C10 witness: two `IntType` nodes with different spans compare equal. -/
theorem astEq_ignores_span_witness :
    astEq (.mk ⟨0, 1⟩ .intType) (.mk ⟨2, 3⟩ .intType) = true :=
  astEq_ignores_span.2 (.mk ⟨0, 1⟩ .intType) (.mk ⟨2, 3⟩ .intType) rfl

end Koopa
